import Mathlib

/-!
Shallow embedding of the Embotic anti-abuse watchdog (two source variants:
`index.js` and `abuse log script.js`).  JavaScript numbers are modelled as
rationals (all arithmetic in the program is exact on the values involved),
timestamps are rationals in milliseconds (`Date.now()`), and network I/O is
modelled by explicit response oracles.  The main variant
(`abuse log script.js`) is embedded at top level; the first variant's breach
predicate lives in namespace `V1`.
-/

attribute [local semireducible] Rat.sub Rat.mul Rat.add Rat.inv Rat.ofScientific

/-- Configured resource limits of an instance: `{cpu, memory, disk}` with
cpu in percent and memory/disk in MB; `0` means unlimited. -/
structure Limits where
  cpu : ℚ
  memory : ℚ
  disk : ℚ
  deriving DecidableEq

/-- A resource snapshot as returned by the client API:
`{memory_bytes, disk_bytes, cpu_absolute}`. -/
structure Resources where
  memory_bytes : ℚ
  disk_bytes : ℚ
  cpu_absolute : ℚ
  deriving DecidableEq

/-- Constants of `abuse log script.js`. -/
def DELAY_BETWEEN_CHECKS_MS : ℕ := 10000

def DELAY_BETWEEN_BATCHES_MS : ℕ := 2000

def RETRY_LIMIT : ℕ := 3

def BATCH_SIZE : ℕ := 5

def REPORT_THRESHOLD_SECONDS : ℚ := 7200

def KILL_THRESHOLD_SECONDS : ℚ := 10800

/-- The over-limit condition of `getServerResources` in
`abuse log script.js`: usage is converted from bytes to GB, limits from MB
to GB, and a non-zero limit breaches when usage is `>=` the limit. -/
def isOverLimit (limits : Limits) (res : Resources) : Bool :=
  let memoryGB := res.memory_bytes / (1024 ^ 3 : ℚ)
  let diskGB := res.disk_bytes / (1024 ^ 3 : ℚ)
  let cpuUsage := res.cpu_absolute
  let memoryLimitGB := limits.memory / 1024
  let diskLimitGB := limits.disk / 1024
  let cpuLimit := limits.cpu
  (decide (cpuLimit > 0) && decide (cpuUsage ≥ cpuLimit)) ||
  (decide (limits.memory > 0) && decide (memoryGB ≥ memoryLimitGB)) ||
  (decide (limits.disk > 0) && decide (diskGB ≥ diskLimitGB))

namespace V1

/-- The over-limit condition of `getServerResources` in the first variant
(`index.js`): the same comparison written over `server.limits`. -/
def isOverLimit (limits : Limits) (res : Resources) : Bool :=
  let memoryGB := res.memory_bytes / (1024 ^ 3 : ℚ)
  let diskGB := res.disk_bytes / (1024 ^ 3 : ℚ)
  let cpuUsage := res.cpu_absolute
  let memoryLimitGB := limits.memory / 1024
  let diskLimitGB := limits.disk / 1024
  let cpuLimit := limits.cpu
  (decide (cpuLimit > 0) && decide (cpuUsage ≥ cpuLimit)) ||
  (decide (limits.memory > 0) && decide (memoryGB ≥ memoryLimitGB)) ||
  (decide (limits.disk > 0) && decide (diskGB ≥ diskLimitGB))

end V1

/-- An `overLimitTracker` entry: `{ startTime, reported, isOverLimit }`
(`startTime` in ms, from `Date.now()`). -/
structure OverLimitEntry where
  startTime : ℚ
  reported : Bool
  isOverLimit : Bool
  deriving DecidableEq

/-- Observable escalation actions of one evaluation:
`notify` = `notifyServerOverLimit`, `terminate` = `killServer` +
`logToDiscord`. -/
inductive TrackerAction where
  | notify
  | terminate
  deriving DecidableEq

/-- The per-nest kill threshold of `getServerResources`:
`isSpecialNest ? 18000 : KILL_THRESHOLD_SECONDS`. -/
def customKillThresholdSeconds (nest : ℤ) : ℚ :=
  if nest = 1 ∨ nest = 6 then 18000 else KILL_THRESHOLD_SECONDS

/-- The tracker transition of `getServerResources` in
`abuse log script.js` for one instance, given the entry currently stored
under its UUID and the current time `now` (ms).  Returns the emitted
actions and the entry left in the tracker (`none` = key absent/deleted). -/
def getServerResourcesEval (nest : ℤ) (limits : Limits) (res : Resources)
    (entry : Option OverLimitEntry) (now : ℚ) :
    List TrackerAction × Option OverLimitEntry :=
  if isOverLimit limits res then
    let e0 : OverLimitEntry := match entry with
      | none => { startTime := now, reported := false, isOverLimit := false }
      | some e => e
    let e1 := { e0 with isOverLimit := true }
    let elapsedTime := (now - e1.startTime) / 1000
    let step1 : List TrackerAction × OverLimitEntry :=
      if elapsedTime ≥ REPORT_THRESHOLD_SECONDS ∧ e1.reported = false then
        ([TrackerAction.notify], { e1 with reported := true })
      else
        ([], e1)
    if elapsedTime ≥ customKillThresholdSeconds nest then
      (step1.1 ++ [TrackerAction.terminate], none)
    else
      (step1.1, some step1.2)
  else
    ([], none)

/-- The global `overLimitTracker` map, keyed by server UUID. -/
def Tracker : Type := String → Option OverLimitEntry

/-- One `getServerResources` call lifted to the whole tracker map: only the
evaluated server's key is touched. -/
def stepTracker (uuid : String) (nest : ℤ) (limits : Limits)
    (res : Resources) (now : ℚ) (t : Tracker) : List TrackerAction × Tracker :=
  let r := getServerResourcesEval nest limits res (t uuid) now
  (r.1, fun k => if k = uuid then r.2 else t k)

/-- A sequence of evaluations of one instance: fold
`getServerResourcesEval` over snapshots with their times, collecting all
emitted actions. -/
def evalRun (nest : ℤ) (limits : Limits) (st : Option OverLimitEntry) :
    List (Resources × ℚ) → List TrackerAction × Option OverLimitEntry
  | [] => ([], st)
  | (res, now) :: rest =>
    let r := getServerResourcesEval nest limits res st now
    let rs := evalRun nest limits r.2 rest
    (r.1 ++ rs.1, rs.2)

/-- The batching of the main loop: `servers.slice(i, i + BATCH_SIZE)` for
`i = 0, BATCH_SIZE, ...`. -/
def toBatches {α : Type} (l : List α) : List (List α) :=
  if l.isEmpty then []
  else l.take BATCH_SIZE :: toBatches (l.drop BATCH_SIZE)
termination_by l.length
decreasing_by
  simp only [List.length_drop]
  have hl : l ≠ [] := by
    intro h
    simp [h] at *
  exact Nat.sub_lt (List.length_pos.mpr hl) (by decide)

/-- The servers evaluated in one cycle of the main loop: the batches,
in order, each fully evaluated. -/
def cycleServers {α : Type} (servers : List α) : List α :=
  (toBatches servers).flatten

/-- One outcome of `fetch(url, { headers })` as observed by
`fetchWithRetry`: a parsed JSON body on `response.ok`, an HTTP status
otherwise, or a thrown network error. -/
inductive FetchOutcome (α : Type) where
  | ok (body : α)
  | httpStatus (code : ℕ)
  | netError
  deriving DecidableEq

/-- `fetchWithRetry` of `abuse log script.js` against an infinite stream of
fetch outcomes (`oracle i` = outcome of the `i`-th fetch attempt).  Returns
the result (`some body` or `null`) together with the list of backoff delays
(ms) slept before each retry. -/
def fetchWithRetry {α : Type} (oracle : ℕ → FetchOutcome α) (i : ℕ)
    (retries : ℕ) : Option α × List ℕ :=
  match oracle i with
  | FetchOutcome.ok body => (some body, [])
  | FetchOutcome.netError => (none, [])
  | FetchOutcome.httpStatus code =>
    match retries with
    | 0 => (none, [])
    | Nat.succ r =>
      if code = 504 then
        let p := fetchWithRetry oracle (i + 1) r
        (p.1, DELAY_BETWEEN_CHECKS_MS :: p.2)
      else (none, [])
termination_by retries

/-- Raw server attributes as delivered by one page of
`/api/application/servers`. -/
structure ServerAttributes where
  uuid : String
  limits : Limits
  name : String
  nest_id : ℤ
  deriving DecidableEq

/-- One page of the application API listing: its `data` array and
`meta.pagination.links.next` (`null` modelled as `none`). -/
structure PageData where
  data : List ServerAttributes
  next : Option String
  deriving DecidableEq

/-- The record pushed onto `serverUUIDs` for an included server:
`{uuid, limits, name, nest}`. -/
structure ServerEntry where
  uuid : String
  limits : Limits
  name : String
  nest : ℤ
  deriving DecidableEq

/-- The servers of one page that survive the nest filter, with the fields
`getAllServersFromAppAPI` surfaces. -/
def includedServers (pd : PageData) : List ServerEntry :=
  pd.data.filterMap fun s =>
    if s.nest_id = 1 ∨ s.nest_id = 6 then none
    else some { uuid := s.uuid, limits := s.limits, name := s.name,
                nest := s.nest_id }

/-- The pagination loop of `getAllServersFromAppAPI`, consuming one oracle
response per fetch.  `none` (failed fetch) aborts the whole call with `[]`;
a page whose `next` link is absent ends the walk.  An exhausted oracle
(unreachable against the real, infinite, server) also ends the walk. -/
def getAllServersGo (responses : List (Option PageData))
    (acc : List ServerEntry) : List ServerEntry :=
  match responses with
  | [] => acc
  | none :: _ => []
  | some pd :: rest =>
    let acc2 := acc ++ includedServers pd
    match pd.next with
    | none => acc2
    | some _ => getAllServersGo rest acc2

/-- `getAllServersFromAppAPI` of `abuse log script.js`, over an explicit
response sequence. -/
def getAllServersFromAppAPI (responses : List (Option PageData)) :
    List ServerEntry :=
  getAllServersGo responses []

/-- A complete page chain: every page but the last carries a `next` link
and the last does not, so the walk consumes exactly these pages. -/
def ChainOK : List PageData → Prop
  | [] => True
  | [p] => p.next = none
  | p :: q :: rest => p.next.isSome = true ∧ ChainOK (q :: rest)

instance : DecidablePred ChainOK := by
  intro l
  induction l with
  | nil => exact isTrue trivial
  | cons p rest ih =>
    cases rest with
    | nil => exact decEq p.next none
    | cons q tl => exact instDecidableAnd


/-- Pages that all carry a `next` link (so the walk never stops early). -/
def AllHaveNext (ps : List PageData) : Prop :=
  ∀ p ∈ ps, p.next.isSome = true

section EvalLemmas

variable {nest : ℤ} {limits : Limits} {res : Resources}
variable {e : OverLimitEntry} {now : ℚ}

theorem eval_not_breach (h : isOverLimit limits res = false)
    (entry : Option OverLimitEntry) :
    getServerResourcesEval nest limits res entry now = ([], none) := by
  simp [getServerResourcesEval, h]

theorem eval_breach_some (hb : isOverLimit limits res = true) :
    getServerResourcesEval nest limits res (some e) now =
      (if (now - e.startTime) / 1000 ≥ customKillThresholdSeconds nest then
        ((if (now - e.startTime) / 1000 ≥ REPORT_THRESHOLD_SECONDS ∧
              e.reported = false then
            [TrackerAction.notify]
          else []) ++ [TrackerAction.terminate], none)
      else if (now - e.startTime) / 1000 ≥ REPORT_THRESHOLD_SECONDS ∧
          e.reported = false then
        ([TrackerAction.notify],
          some { e with reported := true, isOverLimit := true })
      else
        ([], some { e with isOverLimit := true })) := by
  simp only [getServerResourcesEval, hb, if_true]
  by_cases h1 : (now - e.startTime) / 1000 ≥ REPORT_THRESHOLD_SECONDS ∧
      e.reported = false
  · by_cases h2 : (now - e.startTime) / 1000 ≥ customKillThresholdSeconds nest
    · simp [h1, h2]
    · simp [h1, h2]
  · by_cases h2 : (now - e.startTime) / 1000 ≥ customKillThresholdSeconds nest
    · simp [h1, h2]
    · simp [h1, h2]

theorem customKillThresholdSeconds_pos (nest : ℤ) :
    0 < customKillThresholdSeconds nest := by
  unfold customKillThresholdSeconds KILL_THRESHOLD_SECONDS
  split
  · norm_num
  · norm_num

theorem eval_breach_none (hb : isOverLimit limits res = true) :
    getServerResourcesEval nest limits res none now =
      ([], some { startTime := now, reported := false, isOverLimit := true }) := by
  have h1 : ¬ (REPORT_THRESHOLD_SECONDS ≤ (0 : ℚ)) := by
    unfold REPORT_THRESHOLD_SECONDS
    norm_num
  have h2 : ¬ (customKillThresholdSeconds nest ≤ (0 : ℚ)) :=
    not_le.mpr (customKillThresholdSeconds_pos nest)
  simp [getServerResourcesEval, hb, sub_self, zero_div, h1, h2]

end EvalLemmas

/-- C1: the breach predicate holds iff at least one configured non-zero
limit is met or exceeded (inclusive), comparing usage in GB against limits
converted from MB to GB; with all limits zero it is false, and a snapshot
exactly at a non-zero limit breaches. -/
theorem c1_breach_predicate (limits : Limits) (res : Resources) :
    (isOverLimit limits res = true ↔
      (limits.cpu > 0 ∧ res.cpu_absolute ≥ limits.cpu) ∨
      (limits.memory > 0 ∧
        res.memory_bytes / (1024 ^ 3 : ℚ) ≥ limits.memory / 1024) ∨
      (limits.disk > 0 ∧
        res.disk_bytes / (1024 ^ 3 : ℚ) ≥ limits.disk / 1024)) ∧
    (limits.cpu = 0 → limits.memory = 0 → limits.disk = 0 →
      isOverLimit limits res = false) ∧
    (limits.cpu > 0 → res.cpu_absolute = limits.cpu →
      isOverLimit limits res = true) ∧
    (limits.memory > 0 →
      res.memory_bytes / (1024 ^ 3 : ℚ) = limits.memory / 1024 →
      isOverLimit limits res = true) ∧
    (limits.disk > 0 →
      res.disk_bytes / (1024 ^ 3 : ℚ) = limits.disk / 1024 →
      isOverLimit limits res = true) := by
  have hiff : isOverLimit limits res = true ↔
      (limits.cpu > 0 ∧ res.cpu_absolute ≥ limits.cpu) ∨
      (limits.memory > 0 ∧
        res.memory_bytes / (1024 ^ 3 : ℚ) ≥ limits.memory / 1024) ∨
      (limits.disk > 0 ∧
        res.disk_bytes / (1024 ^ 3 : ℚ) ≥ limits.disk / 1024) := by
    simp [isOverLimit]
    tauto
  refine ⟨hiff, ?_, ?_, ?_, ?_⟩
  · intro h1 h2 h3
    rw [Bool.eq_false_iff]
    intro hc
    rcases hiff.mp hc with h | h | h
    · rw [h1] at h
      exact lt_irrefl 0 h.1
    · rw [h2] at h
      exact lt_irrefl 0 h.1
    · rw [h3] at h
      exact lt_irrefl 0 h.1
  · intro hpos heq
    exact hiff.mpr (Or.inl ⟨hpos, ge_of_eq heq⟩)
  · intro hpos heq
    exact hiff.mpr (Or.inr (Or.inl ⟨hpos, ge_of_eq heq⟩))
  · intro hpos heq
    exact hiff.mpr (Or.inr (Or.inr ⟨hpos, ge_of_eq heq⟩))

theorem c1_breach_predicate_witness :
    isOverLimit ⟨0, 0, 0⟩ ⟨999, 999, 999⟩ = false ∧
    isOverLimit ⟨50, 0, 0⟩ ⟨0, 0, 50⟩ = true := by
  refine ⟨(c1_breach_predicate ⟨0, 0, 0⟩ ⟨999, 999, 999⟩).2.1 rfl rfl rfl, ?_⟩
  exact (c1_breach_predicate ⟨50, 0, 0⟩ ⟨0, 0, 50⟩).2.2.1 (by decide) rfl

/-- C10: the over-limit conditions of the two source variants are
extensionally equal. -/
theorem c10_variants_agree (limits : Limits) (res : Resources) :
    V1.isOverLimit limits res = isOverLimit limits res := rfl

/-- C6: a breaching evaluation below both the report threshold and the
applicable kill threshold emits nothing, and the entry persists with
`startTime` and `reported` unchanged. -/
theorem c6_below_thresholds_frame (nest : ℤ) (limits : Limits)
    (res : Resources) (e : OverLimitEntry) (now : ℚ)
    (hb : isOverLimit limits res = true)
    (hr : (now - e.startTime) / 1000 < REPORT_THRESHOLD_SECONDS)
    (hk : (now - e.startTime) / 1000 < customKillThresholdSeconds nest) :
    ∃ e2, getServerResourcesEval nest limits res (some e) now = ([], some e2) ∧
      e2.startTime = e.startTime ∧ e2.reported = e.reported := by
  rw [eval_breach_some hb]
  rw [if_neg (not_le.mpr hk)]
  rw [if_neg (fun h => absurd h.1 (not_le.mpr hr))]
  exact ⟨_, rfl, rfl, rfl⟩

theorem c6_below_thresholds_frame_witness :
    ∃ e2, getServerResourcesEval 0 ⟨50, 0, 0⟩ ⟨0, 0, 50⟩
        (some ⟨0, false, false⟩) 1000000 = ([], some e2) ∧
      e2.startTime = (⟨0, false, false⟩ : OverLimitEntry).startTime ∧
      e2.reported = (⟨0, false, false⟩ : OverLimitEntry).reported :=
  c6_below_thresholds_frame 0 ⟨50, 0, 0⟩ ⟨0, 0, 50⟩ ⟨0, false, false⟩ 1000000
    (by decide) (by decide) (by decide)

/-- C3: once elapsed breach time reaches the applicable kill threshold,
Terminate is emitted and the entry is deleted, whatever the `reported`
flag; a later breaching evaluation with no entry creates a fresh one whose
`startTime` is the time of that evaluation. -/
theorem c3_terminate_deletes (nest : ℤ) (limits : Limits) (res : Resources)
    (e : OverLimitEntry) (now : ℚ)
    (hb : isOverLimit limits res = true)
    (hk : (now - e.startTime) / 1000 ≥ customKillThresholdSeconds nest) :
    (TrackerAction.terminate ∈
        (getServerResourcesEval nest limits res (some e) now).1 ∧
      (getServerResourcesEval nest limits res (some e) now).2 = none) ∧
    (∀ res2 now2, isOverLimit limits res2 = true →
      getServerResourcesEval nest limits res2 none now2 =
        ([], some { startTime := now2, reported := false,
                    isOverLimit := true })) := by
  constructor
  · rw [eval_breach_some hb, if_pos hk]
    constructor
    · simp
    · rfl
  · intro res2 now2 hb2
    exact eval_breach_none hb2

theorem c3_terminate_deletes_witness :
    (TrackerAction.terminate ∈
        (getServerResourcesEval 0 ⟨50, 0, 0⟩ ⟨0, 0, 50⟩
          (some ⟨0, true, true⟩) 10800000).1 ∧
      (getServerResourcesEval 0 ⟨50, 0, 0⟩ ⟨0, 0, 50⟩
        (some ⟨0, true, true⟩) 10800000).2 = none) ∧
    getServerResourcesEval 0 ⟨50, 0, 0⟩ ⟨0, 0, 50⟩ none 10900000 =
      ([], some { startTime := 10900000, reported := false,
                  isOverLimit := true }) := by
  have h := c3_terminate_deletes 0 ⟨50, 0, 0⟩ ⟨0, 0, 50⟩ ⟨0, true, true⟩
    10800000 (by decide) (by decide)
  exact ⟨h.1, h.2 ⟨0, 0, 50⟩ 10900000 (by decide)⟩

/-- C4: evaluating a non-breaching instance deletes its entry if one
exists (and emits nothing), leaves the whole tracker unchanged if none
exists, and any later breach creates a fresh entry stamped with the time
of that later evaluation. -/
theorem c4_recovery_resets (uuid : String) (nest : ℤ) (limits : Limits)
    (res : Resources) (now : ℚ) (t : Tracker)
    (hnb : isOverLimit limits res = false) :
    ((stepTracker uuid nest limits res now t).1 = [] ∧
      (stepTracker uuid nest limits res now t).2 uuid = none) ∧
    (t uuid = none → stepTracker uuid nest limits res now t = ([], t)) ∧
    (∀ res2 now2, isOverLimit limits res2 = true →
      getServerResourcesEval nest limits res2 none now2 =
        ([], some { startTime := now2, reported := false,
                    isOverLimit := true })) := by
  refine ⟨⟨?_, ?_⟩, ?_, ?_⟩
  · simp [stepTracker, eval_not_breach hnb]
  · simp [stepTracker, eval_not_breach hnb]
  · intro ht
    simp only [stepTracker, eval_not_breach hnb]
    refine Prod.ext rfl ?_
    funext k
    by_cases hk : k = uuid
    · subst hk
      simp [ht]
    · simp [hk]
  · intro res2 now2 hb2
    exact eval_breach_none hb2

theorem c4_recovery_resets_witness :
    (stepTracker "a" 0 ⟨0, 0, 0⟩ ⟨1, 1, 1⟩ 5 (fun _ => none) =
      ([], fun _ => none)) ∧
    getServerResourcesEval 0 ⟨1, 0, 0⟩ ⟨0, 0, 1⟩ none 200000 =
      ([], some { startTime := 200000, reported := false,
                  isOverLimit := true }) := by
  have h := c4_recovery_resets "a" 0 ⟨0, 0, 0⟩ ⟨1, 1, 1⟩ 5 (fun _ => none)
    (by decide)
  have h2 := c4_recovery_resets "a" 0 ⟨1, 0, 0⟩ ⟨0, 0, 0⟩ 5 (fun _ => none)
    (by decide)
  exact ⟨h.2.1 rfl, h2.2.2 ⟨0, 0, 1⟩ 200000 (by decide)⟩

theorem evalRun_cons (nest : ℤ) (limits : Limits)
    (st : Option OverLimitEntry) (res : Resources) (now : ℚ)
    (rest : List (Resources × ℚ)) :
    evalRun nest limits st ((res, now) :: rest) =
      ((getServerResourcesEval nest limits res st now).1 ++
        (evalRun nest limits
          (getServerResourcesEval nest limits res st now).2 rest).1,
       (evalRun nest limits
          (getServerResourcesEval nest limits res st now).2 rest).2) := rfl

theorem run_no_notify_of_reported (nest : ℤ) (limits : Limits) :
    ∀ (steps : List (Resources × ℚ)) (e : OverLimitEntry),
      e.reported = true →
      (∀ p ∈ steps, isOverLimit limits p.1 = true) →
      TrackerAction.terminate ∉ (evalRun nest limits (some e) steps).1 →
      TrackerAction.notify ∉ (evalRun nest limits (some e) steps).1 := by
  intro steps
  induction steps with
  | nil =>
    intro e _ _ _
    simp [evalRun]
  | cons p rest ih =>
    intro e hrep hb hnt
    obtain ⟨res, now⟩ := p
    have hb1 : isOverLimit limits res = true :=
      hb (res, now) (List.mem_cons_self _ _)
    have hcond : ¬ ((now - e.startTime) / 1000 ≥ REPORT_THRESHOLD_SECONDS ∧
        e.reported = false) := by
      rintro ⟨-, hfalse⟩
      rw [hrep] at hfalse
      exact absurd hfalse (by simp)
    rw [evalRun_cons, eval_breach_some hb1] at hnt ⊢
    by_cases hkill :
        (now - e.startTime) / 1000 ≥ customKillThresholdSeconds nest
    · exfalso
      apply hnt
      rw [if_pos hkill]
      simp
    · simp only [if_neg hkill, if_neg hcond, List.nil_append] at hnt ⊢
      exact ih { e with isOverLimit := true } hrep
        (fun q hq => hb q (List.mem_cons_of_mem _ hq)) hnt

theorem run_notify_count_le_one (nest : ℤ) (limits : Limits) :
    ∀ (steps : List (Resources × ℚ)) (st : Option OverLimitEntry),
      (st = none ∨ ∃ e, st = some e ∧ e.reported = false) →
      (∀ p ∈ steps, isOverLimit limits p.1 = true) →
      TrackerAction.terminate ∉ (evalRun nest limits st steps).1 →
      (evalRun nest limits st steps).1.count TrackerAction.notify ≤ 1 := by
  intro steps
  induction steps with
  | nil =>
    intro st _ _ _
    simp [evalRun]
  | cons p rest ih =>
    intro st hst hb hnt
    obtain ⟨res, now⟩ := p
    have hb1 : isOverLimit limits res = true :=
      hb (res, now) (List.mem_cons_self _ _)
    have hbrest : ∀ q ∈ rest, isOverLimit limits q.1 = true :=
      fun q hq => hb q (List.mem_cons_of_mem _ hq)
    rcases hst with hnone | ⟨e, hsome, hrep⟩
    · subst hnone
      rw [evalRun_cons, eval_breach_none hb1] at hnt ⊢
      simp only [List.nil_append] at hnt ⊢
      exact ih _ (Or.inr ⟨_, rfl, rfl⟩) hbrest hnt
    · subst hsome
      rw [evalRun_cons, eval_breach_some hb1] at hnt ⊢
      by_cases hkill :
          (now - e.startTime) / 1000 ≥ customKillThresholdSeconds nest
      · exfalso
        apply hnt
        rw [if_pos hkill]
        simp
      · simp only [if_neg hkill] at hnt ⊢
        by_cases hcond : (now - e.startTime) / 1000 ≥
            REPORT_THRESHOLD_SECONDS ∧ e.reported = false
        · simp only [if_pos hcond] at hnt ⊢
          have hnt2 : TrackerAction.terminate ∉
              (evalRun nest limits
                (some { e with reported := true, isOverLimit := true })
                rest).1 := by
            intro hmem
            apply hnt
            simp [hmem]
          have hzero := run_no_notify_of_reported nest limits rest
            { e with reported := true, isOverLimit := true } rfl hbrest hnt2
          have hc0 : (evalRun nest limits
              (some { e with reported := true, isOverLimit := true })
              rest).1.count TrackerAction.notify = 0 :=
            List.count_eq_zero.mpr hzero
          simp [List.count_append, hc0]
        · simp only [if_neg hcond, List.nil_append] at hnt ⊢
          exact ih _ (Or.inr ⟨_, rfl, hrep⟩) hbrest hnt

/-- C2: on a breaching evaluation with the report threshold reached and
`notified` still false, Notify is emitted and the flag is set; starting
from no entry, a run of breaching evaluations that never terminates the
instance emits Notify at most once; and once the flag is set no further
breaching evaluation of the same episode emits Notify. -/
theorem c2_notify_once (nest : ℤ) (limits : Limits) (res : Resources)
    (e : OverLimitEntry) (now : ℚ)
    (hb : isOverLimit limits res = true)
    (hr : (now - e.startTime) / 1000 ≥ REPORT_THRESHOLD_SECONDS)
    (hrep : e.reported = false) :
    (TrackerAction.notify ∈
        (getServerResourcesEval nest limits res (some e) now).1 ∧
      ∀ e2, (getServerResourcesEval nest limits res (some e) now).2 = some e2 →
        e2.reported = true) ∧
    (∀ steps : List (Resources × ℚ),
      (∀ p ∈ steps, isOverLimit limits p.1 = true) →
      TrackerAction.terminate ∉ (evalRun nest limits none steps).1 →
      (evalRun nest limits none steps).1.count TrackerAction.notify ≤ 1) ∧
    (∀ (steps : List (Resources × ℚ)) (e3 : OverLimitEntry),
      e3.reported = true →
      (∀ p ∈ steps, isOverLimit limits p.1 = true) →
      TrackerAction.terminate ∉ (evalRun nest limits (some e3) steps).1 →
      TrackerAction.notify ∉ (evalRun nest limits (some e3) steps).1) := by
  refine ⟨⟨?_, ?_⟩, ?_, ?_⟩
  · rw [eval_breach_some hb]
    by_cases hkill :
        (now - e.startTime) / 1000 ≥ customKillThresholdSeconds nest
    · rw [if_pos hkill, if_pos ⟨hr, hrep⟩]
      simp
    · rw [if_neg hkill, if_pos ⟨hr, hrep⟩]
      simp
  · intro e2 he2
    rw [eval_breach_some hb] at he2
    by_cases hkill :
        (now - e.startTime) / 1000 ≥ customKillThresholdSeconds nest
    · rw [if_pos hkill] at he2
      simp at he2
    · rw [if_neg hkill, if_pos ⟨hr, hrep⟩] at he2
      have h2 : some { e with reported := true, isOverLimit := true } =
          some e2 := he2
      obtain rfl := Option.some.inj h2
      rfl
  · intro steps hbr hnt
    exact run_notify_count_le_one nest limits steps none (Or.inl rfl) hbr hnt
  · intro steps e3 h1 h2 h3
    exact run_no_notify_of_reported nest limits steps e3 h1 h2 h3

theorem c2_notify_once_witness :
    TrackerAction.notify ∈
      (getServerResourcesEval 0 ⟨50, 0, 0⟩ ⟨0, 0, 50⟩
        (some ⟨0, false, false⟩) 7200000).1 ∧
    (evalRun 0 ⟨50, 0, 0⟩ none
        [(⟨0, 0, 50⟩, 0), (⟨0, 0, 50⟩, 7200000),
         (⟨0, 0, 50⟩, 7300000)]).1.count TrackerAction.notify ≤ 1 := by
  have h := c2_notify_once 0 ⟨50, 0, 0⟩ ⟨0, 0, 50⟩ ⟨0, false, false⟩ 7200000
    (by decide) (by decide) rfl
  refine ⟨h.1.1, h.2.1 [(⟨0, 0, 50⟩, 0), (⟨0, 0, 50⟩, 7200000),
    (⟨0, 0, 50⟩, 7300000)] (by decide) (by decide)⟩

theorem terminate_mem_iff {nest : ℤ} {limits : Limits} {res : Resources}
    {e : OverLimitEntry} {now : ℚ} (hb : isOverLimit limits res = true) :
    TrackerAction.terminate ∈
        (getServerResourcesEval nest limits res (some e) now).1 ↔
      (now - e.startTime) / 1000 ≥ customKillThresholdSeconds nest := by
  rw [eval_breach_some hb]
  by_cases hkill :
      (now - e.startTime) / 1000 ≥ customKillThresholdSeconds nest
  · rw [if_pos hkill]
    simp [hkill]
  · rw [if_neg hkill]
    by_cases hcond : (now - e.startTime) / 1000 ≥ REPORT_THRESHOLD_SECONDS ∧
        e.reported = false
    · rw [if_pos hcond]
      simp [hkill]
    · rw [if_neg hcond]
      simp [hkill]

theorem notify_mem_iff {nest : ℤ} {limits : Limits} {res : Resources}
    {e : OverLimitEntry} {now : ℚ} (hb : isOverLimit limits res = true) :
    TrackerAction.notify ∈
        (getServerResourcesEval nest limits res (some e) now).1 ↔
      ((now - e.startTime) / 1000 ≥ REPORT_THRESHOLD_SECONDS ∧
        e.reported = false) := by
  rw [eval_breach_some hb]
  by_cases hcond : (now - e.startTime) / 1000 ≥ REPORT_THRESHOLD_SECONDS ∧
      e.reported = false
  · by_cases hkill :
        (now - e.startTime) / 1000 ≥ customKillThresholdSeconds nest
    · rw [if_pos hkill, if_pos hcond]
      simp [hcond]
    · rw [if_neg hkill, if_pos hcond]
      simp [hcond]
  · by_cases hkill :
        (now - e.startTime) / 1000 ≥ customKillThresholdSeconds nest
    · rw [if_pos hkill, if_neg hcond]
      simp [hcond]
    · rw [if_neg hkill, if_neg hcond]
      simp [hcond]

theorem toBatches_flatten_aux {α : Type} :
    ∀ (n : ℕ) (l : List α), l.length ≤ n → (toBatches l).flatten = l := by
  intro n
  induction n with
  | zero =>
    intro l h
    have hl : l = [] := List.eq_nil_of_length_eq_zero (Nat.le_zero.mp h)
    subst hl
    rw [toBatches]
    simp
  | succ n ih =>
    intro l h
    rw [toBatches]
    by_cases hl : l.isEmpty = true
    · rw [if_pos hl]
      rw [List.isEmpty_iff] at hl
      subst hl
      simp
    · rw [if_neg hl]
      rw [List.flatten_cons]
      have hne : l ≠ [] := by
        intro hnil
        subst hnil
        exact hl rfl
      have hlen : (l.drop BATCH_SIZE).length ≤ n := by
        rw [List.length_drop]
        have hpos := List.length_pos.mpr hne
        have hb5 : BATCH_SIZE = 5 := rfl
        omega
      rw [ih _ hlen]
      exact List.take_append_drop _ _

theorem cycleServers_id {α : Type} (servers : List α) :
    cycleServers servers = servers :=
  toBatches_flatten_aux servers.length servers le_rfl

/-- C5: nests 1 and 6 use the overridden kill threshold 18000s (others the
default 10800s), so for them Terminate fires exactly when elapsed breach
time reaches 18000s and not at the default; the Notify condition does not
depend on the nest at all; and every server listed by the directory is
evaluated (exactly the listed servers make up the cycle's batches). -/
theorem c5_nest_thresholds (nest : ℤ) (limits : Limits) (res : Resources)
    (e : OverLimitEntry) (now : ℚ)
    (hb : isOverLimit limits res = true) :
    (customKillThresholdSeconds 1 = 18000 ∧
      customKillThresholdSeconds 6 = 18000 ∧
      (¬ (nest = 1 ∨ nest = 6) → customKillThresholdSeconds nest = 10800)) ∧
    ((nest = 1 ∨ nest = 6) →
      (TrackerAction.terminate ∈
          (getServerResourcesEval nest limits res (some e) now).1 ↔
        (now - e.startTime) / 1000 ≥ 18000)) ∧
    (∀ nest2 : ℤ,
      (TrackerAction.notify ∈
          (getServerResourcesEval nest limits res (some e) now).1 ↔
        TrackerAction.notify ∈
          (getServerResourcesEval nest2 limits res (some e) now).1)) ∧
    (∀ servers : List ServerEntry, cycleServers servers = servers) := by
  refine ⟨⟨?_, ?_, ?_⟩, ?_, ?_, ?_⟩
  · simp [customKillThresholdSeconds]
  · simp [customKillThresholdSeconds]
  · intro hns
    unfold customKillThresholdSeconds KILL_THRESHOLD_SECONDS
    rw [if_neg hns]
  · intro hsp
    rw [terminate_mem_iff hb]
    unfold customKillThresholdSeconds
    rw [if_pos hsp]
  · intro nest2
    exact Iff.trans (notify_mem_iff hb) (notify_mem_iff hb).symm
  · intro servers
    exact cycleServers_id servers

theorem c5_nest_thresholds_witness :
    TrackerAction.terminate ∈
      (getServerResourcesEval 1 ⟨50, 0, 0⟩ ⟨0, 0, 50⟩
        (some ⟨0, false, true⟩) 18000000).1 ∧
    TrackerAction.terminate ∉
      (getServerResourcesEval 1 ⟨50, 0, 0⟩ ⟨0, 0, 50⟩
        (some ⟨0, false, true⟩) 10800000).1 ∧
    cycleServers [(⟨"a", ⟨0, 0, 0⟩, "n", 2⟩ : ServerEntry)] =
      [(⟨"a", ⟨0, 0, 0⟩, "n", 2⟩ : ServerEntry)] := by
  have h1 := c5_nest_thresholds 1 ⟨50, 0, 0⟩ ⟨0, 0, 50⟩ ⟨0, false, true⟩
    18000000 (by decide)
  have h2 := c5_nest_thresholds 1 ⟨50, 0, 0⟩ ⟨0, 0, 50⟩ ⟨0, false, true⟩
    10800000 (by decide)
  refine ⟨(h1.2.1 (Or.inl rfl)).mpr (by decide), ?_,
    h1.2.2.2 [⟨"a", ⟨0, 0, 0⟩, "n", 2⟩]⟩
  intro hmem
  exact absurd ((h2.2.1 (Or.inl rfl)).mp hmem) (by decide)

theorem getAllGo_nil (acc : List ServerEntry) :
    getAllServersGo [] acc = acc := rfl

theorem getAllGo_none (rest : List (Option PageData))
    (acc : List ServerEntry) :
    getAllServersGo (none :: rest) acc = [] := rfl

theorem getAllGo_some_unfold (pd : PageData)
    (rest : List (Option PageData)) (acc : List ServerEntry) :
    getAllServersGo (some pd :: rest) acc =
      (match pd.next with
       | none => acc ++ includedServers pd
       | some _ => getAllServersGo rest (acc ++ includedServers pd)) := rfl

theorem getAllGo_some_none (pd : PageData) (rest : List (Option PageData))
    (acc : List ServerEntry) (h : pd.next = none) :
    getAllServersGo (some pd :: rest) acc = acc ++ includedServers pd := by
  rw [getAllGo_some_unfold, h]

theorem getAllGo_some_some (pd : PageData) (rest : List (Option PageData))
    (acc : List ServerEntry) (u : String) (h : pd.next = some u) :
    getAllServersGo (some pd :: rest) acc =
      getAllServersGo rest (acc ++ includedServers pd) := by
  rw [getAllGo_some_unfold, h]

theorem includedServers_excludes (pd : PageData) :
    ∀ s ∈ includedServers pd, ¬ (s.nest = 1 ∨ s.nest = 6) := by
  intro s hs
  simp only [includedServers, List.mem_filterMap] at hs
  obtain ⟨a, ha, hval⟩ := hs
  by_cases hc : a.nest_id = 1 ∨ a.nest_id = 6
  · rw [if_pos hc] at hval
    exact absurd hval (by simp)
  · rw [if_neg hc] at hval
    obtain rfl := Option.some.inj hval
    exact hc

theorem getAllGo_excludes :
    ∀ (responses : List (Option PageData)) (acc : List ServerEntry),
      (∀ s ∈ acc, ¬ (s.nest = 1 ∨ s.nest = 6)) →
      ∀ s ∈ getAllServersGo responses acc, ¬ (s.nest = 1 ∨ s.nest = 6) := by
  intro responses
  induction responses with
  | nil =>
    intro acc hacc s hs
    rw [getAllGo_nil] at hs
    exact hacc s hs
  | cons r rest ih =>
    intro acc hacc s hs
    cases r with
    | none =>
      rw [getAllGo_none] at hs
      exact absurd hs (by simp)
    | some pd =>
      have hacc2 : ∀ x ∈ acc ++ includedServers pd,
          ¬ (x.nest = 1 ∨ x.nest = 6) := by
        intro x hx
        rcases List.mem_append.mp hx with h | h
        · exact hacc x h
        · exact includedServers_excludes pd x h
      cases hn : pd.next with
      | none =>
        rw [getAllGo_some_none pd rest acc hn] at hs
        exact hacc2 s hs
      | some u =>
        rw [getAllGo_some_some pd rest acc u hn] at hs
        exact ih _ hacc2 s hs

theorem getAllGo_chain :
    ∀ (ps : List PageData) (rest : List (Option PageData))
      (acc : List ServerEntry),
      ps ≠ [] → ChainOK ps →
      getAllServersGo (ps.map some ++ rest) acc =
        acc ++ (ps.map includedServers).flatten := by
  intro ps
  induction ps with
  | nil =>
    intro rest acc h _
    exact absurd rfl h
  | cons p tl ih =>
    intro rest acc _ hchain
    cases tl with
    | nil =>
      have hnext : p.next = none := hchain
      simp only [List.map_cons, List.map_nil, List.cons_append,
        List.nil_append]
      rw [getAllGo_some_none p rest acc hnext]
      simp
    | cons q tl2 =>
      obtain ⟨hnextsome, hchain2⟩ := hchain
      obtain ⟨u, hu⟩ := Option.isSome_iff_exists.mp hnextsome
      have e1 : (p :: q :: tl2).map some ++ rest =
          some p :: ((q :: tl2).map some ++ rest) := by
        simp
      rw [e1, getAllGo_some_some p _ acc u hu]
      rw [ih rest (acc ++ includedServers p) (by simp) hchain2]
      simp

theorem getAllGo_failure :
    ∀ (ps : List PageData) (rest : List (Option PageData))
      (acc : List ServerEntry),
      AllHaveNext ps →
      getAllServersGo (ps.map some ++ none :: rest) acc = [] := by
  intro ps
  induction ps with
  | nil =>
    intro rest acc _
    exact getAllGo_none rest acc
  | cons p tl ih =>
    intro rest acc hall
    obtain ⟨u, hu⟩ :=
      Option.isSome_iff_exists.mp (hall p (List.mem_cons_self p tl))
    have e1 : (p :: tl).map some ++ none :: rest =
        some p :: (tl.map some ++ none :: rest) := by
      simp
    rw [e1, getAllGo_some_some p _ acc u hu]
    exact ih rest _ (fun q hq => hall q (List.mem_cons_of_mem _ hq))

instance : DecidablePred AllHaveNext :=
  fun ps => List.decidableBAll _ ps

/-- C7: the directory listing walks every page of a complete pagination
chain and returns exactly the included (non-excluded-nest) servers of all
pages with their `{uuid, limits, name, nest}` fields; no returned server
has nest 1 or 6; and a failed fetch on any page — also mid-pagination —
makes the whole call return the empty list. -/
theorem c7_directory_listing :
    (∀ (responses : List (Option PageData)) (s : ServerEntry),
      s ∈ getAllServersFromAppAPI responses → ¬ (s.nest = 1 ∨ s.nest = 6)) ∧
    (∀ (ps : List PageData) (rest : List (Option PageData)),
      ps ≠ [] → ChainOK ps →
      getAllServersFromAppAPI (ps.map some ++ rest) =
        (ps.map includedServers).flatten) ∧
    (∀ (ps : List PageData) (rest : List (Option PageData)),
      AllHaveNext ps →
      getAllServersFromAppAPI (ps.map some ++ none :: rest) = []) := by
  refine ⟨?_, ?_, ?_⟩
  · intro responses s hs
    exact getAllGo_excludes responses [] (by simp) s hs
  · intro ps rest hne hchain
    unfold getAllServersFromAppAPI
    rw [getAllGo_chain ps rest [] hne hchain]
    simp
  · intro ps rest hall
    exact getAllGo_failure ps rest [] hall

theorem c7_directory_listing_witness :
    (¬ ((⟨"s1", ⟨0, 0, 0⟩, "n1", 2⟩ : ServerEntry).nest = 1 ∨
        (⟨"s1", ⟨0, 0, 0⟩, "n1", 2⟩ : ServerEntry).nest = 6)) ∧
    getAllServersFromAppAPI
        ([(⟨[⟨"s1", ⟨0, 0, 0⟩, "n1", 2⟩, ⟨"s2", ⟨0, 0, 0⟩, "n2", 1⟩],
            some "p2"⟩ : PageData),
          (⟨[⟨"s3", ⟨0, 0, 0⟩, "n3", 6⟩], none⟩ : PageData)].map some ++ []) =
      ([(⟨[⟨"s1", ⟨0, 0, 0⟩, "n1", 2⟩, ⟨"s2", ⟨0, 0, 0⟩, "n2", 1⟩],
          some "p2"⟩ : PageData),
        (⟨[⟨"s3", ⟨0, 0, 0⟩, "n3", 6⟩], none⟩ : PageData)].map
          includedServers).flatten ∧
    getAllServersFromAppAPI
        ([(⟨[⟨"s1", ⟨0, 0, 0⟩, "n1", 2⟩], some "p2"⟩ : PageData)].map some ++
          none :: []) = [] := by
  refine ⟨?_, ?_, ?_⟩
  · exact c7_directory_listing.1
      [some ⟨[⟨"s1", ⟨0, 0, 0⟩, "n1", 2⟩], none⟩] ⟨"s1", ⟨0, 0, 0⟩, "n1", 2⟩
      (by decide)
  · exact c7_directory_listing.2.1
      [⟨[⟨"s1", ⟨0, 0, 0⟩, "n1", 2⟩, ⟨"s2", ⟨0, 0, 0⟩, "n2", 1⟩], some "p2"⟩,
       ⟨[⟨"s3", ⟨0, 0, 0⟩, "n3", 6⟩], none⟩] [] (by decide) (by decide)
  · exact c7_directory_listing.2.2
      [⟨[⟨"s1", ⟨0, 0, 0⟩, "n1", 2⟩], some "p2"⟩] [] (by decide)

theorem fetchWithRetry_ok {α : Type} (oracle : ℕ → FetchOutcome α)
    (i retries : ℕ) (body : α) (h : oracle i = FetchOutcome.ok body) :
    fetchWithRetry oracle i retries = (some body, []) := by
  rw [fetchWithRetry, h]

theorem fetchWithRetry_err {α : Type} (oracle : ℕ → FetchOutcome α)
    (i retries : ℕ) (h : oracle i = FetchOutcome.netError) :
    fetchWithRetry oracle i retries = (none, []) := by
  rw [fetchWithRetry, h]

theorem fetchWithRetry_status_zero {α : Type} (oracle : ℕ → FetchOutcome α)
    (i code : ℕ) (h : oracle i = FetchOutcome.httpStatus code) :
    fetchWithRetry oracle i 0 = (none, []) := by
  rw [fetchWithRetry, h]

theorem fetchWithRetry_status_succ_504 {α : Type}
    (oracle : ℕ → FetchOutcome α) (i r : ℕ)
    (h : oracle i = FetchOutcome.httpStatus 504) :
    fetchWithRetry oracle i (r + 1) =
      ((fetchWithRetry oracle (i + 1) r).1,
        DELAY_BETWEEN_CHECKS_MS :: (fetchWithRetry oracle (i + 1) r).2) := by
  rw [fetchWithRetry, h]
  simp

theorem fetchWithRetry_status_succ_not {α : Type}
    (oracle : ℕ → FetchOutcome α) (i r code : ℕ)
    (h : oracle i = FetchOutcome.httpStatus code) (hc : code ≠ 504) :
    fetchWithRetry oracle i (r + 1) = (none, []) := by
  rw [fetchWithRetry, h]
  simp [hc]

theorem fetchWithRetry_delays {α : Type} (oracle : ℕ → FetchOutcome α) :
    ∀ (retries i : ℕ), ∀ d ∈ (fetchWithRetry oracle i retries).2,
      d = DELAY_BETWEEN_CHECKS_MS := by
  intro retries
  induction retries with
  | zero =>
    intro i d hd
    cases h : oracle i with
    | ok body =>
      rw [fetchWithRetry_ok oracle i 0 body h] at hd
      exact absurd hd (by simp)
    | httpStatus code =>
      rw [fetchWithRetry_status_zero oracle i code h] at hd
      exact absurd hd (by simp)
    | netError =>
      rw [fetchWithRetry_err oracle i 0 h] at hd
      exact absurd hd (by simp)
  | succ r ih =>
    intro i d hd
    cases h : oracle i with
    | ok body =>
      rw [fetchWithRetry_ok oracle i (r + 1) body h] at hd
      exact absurd hd (by simp)
    | netError =>
      rw [fetchWithRetry_err oracle i (r + 1) h] at hd
      exact absurd hd (by simp)
    | httpStatus code =>
      by_cases hc : code = 504
      · subst hc
        rw [fetchWithRetry_status_succ_504 oracle i r h] at hd
        rcases List.mem_cons.mp hd with h1 | h1
        · exact h1
        · exact ih (i + 1) d h1
      · rw [fetchWithRetry_status_succ_not oracle i r code h hc] at hd
        exact absurd hd (by simp)

/-- C8: `fetchWithRetry` returns the parsed body on a successful response;
on a 504 with budget left it sleeps the fixed backoff delay and retries;
on any other status, on a 504 with no budget, or on a thrown network
error it returns `null` (`none`) without retrying; and every backoff it
ever sleeps equals the one fixed delay. -/
theorem c8_fetch_retry_contract {α : Type} (oracle : ℕ → FetchOutcome α)
    (i retries : ℕ) :
    (∀ body, oracle i = FetchOutcome.ok body →
      fetchWithRetry oracle i retries = (some body, [])) ∧
    (oracle i = FetchOutcome.httpStatus 504 → ∀ r, retries = r + 1 →
      fetchWithRetry oracle i retries =
        ((fetchWithRetry oracle (i + 1) r).1,
          DELAY_BETWEEN_CHECKS_MS :: (fetchWithRetry oracle (i + 1) r).2)) ∧
    (∀ code, oracle i = FetchOutcome.httpStatus code → code ≠ 504 →
      fetchWithRetry oracle i retries = (none, [])) ∧
    (∀ code, oracle i = FetchOutcome.httpStatus code →
      fetchWithRetry oracle i 0 = (none, [])) ∧
    (oracle i = FetchOutcome.netError →
      fetchWithRetry oracle i retries = (none, [])) ∧
    (∀ d ∈ (fetchWithRetry oracle i retries).2,
      d = DELAY_BETWEEN_CHECKS_MS) := by
  refine ⟨?_, ?_, ?_, ?_, ?_, ?_⟩
  · intro body h
    exact fetchWithRetry_ok oracle i retries body h
  · intro h r hr
    subst hr
    exact fetchWithRetry_status_succ_504 oracle i r h
  · intro code h hc
    cases retries with
    | zero => exact fetchWithRetry_status_zero oracle i code h
    | succ r => exact fetchWithRetry_status_succ_not oracle i r code h hc
  · intro code h
    exact fetchWithRetry_status_zero oracle i code h
  · intro h
    exact fetchWithRetry_err oracle i retries h
  · exact fetchWithRetry_delays oracle retries i

theorem c8_fetch_retry_contract_witness :
    fetchWithRetry (fun _ => FetchOutcome.ok 7) 0 3 = (some 7, []) ∧
    fetchWithRetry (fun _ => (FetchOutcome.httpStatus 500 : FetchOutcome ℕ))
      0 3 = (none, []) ∧
    fetchWithRetry (fun _ => (FetchOutcome.netError : FetchOutcome ℕ))
      0 3 = (none, []) := by
  have h1 := c8_fetch_retry_contract (fun _ => FetchOutcome.ok 7) 0 3
  have h2 := c8_fetch_retry_contract
    (fun _ => (FetchOutcome.httpStatus 500 : FetchOutcome ℕ)) 0 3
  have h3 := c8_fetch_retry_contract
    (fun _ => (FetchOutcome.netError : FetchOutcome ℕ)) 0 3
  exact ⟨h1.1 7 rfl, h2.2.2.1 500 rfl (by decide), h3.2.2.2.2.1 rfl⟩

theorem fetchWithRetry_length_le {α : Type} (oracle : ℕ → FetchOutcome α) :
    ∀ (retries i : ℕ),
      (fetchWithRetry oracle i retries).2.length ≤ retries := by
  intro retries
  induction retries with
  | zero =>
    intro i
    cases h : oracle i with
    | ok body => rw [fetchWithRetry_ok oracle i 0 body h]; simp
    | httpStatus code => rw [fetchWithRetry_status_zero oracle i code h]; simp
    | netError => rw [fetchWithRetry_err oracle i 0 h]; simp
  | succ r ih =>
    intro i
    cases h : oracle i with
    | ok body => rw [fetchWithRetry_ok oracle i (r + 1) body h]; simp
    | netError => rw [fetchWithRetry_err oracle i (r + 1) h]; simp
    | httpStatus code =>
      by_cases hc : code = 504
      · subst hc
        rw [fetchWithRetry_status_succ_504 oracle i r h]
        simpa using ih (i + 1)
      · rw [fetchWithRetry_status_succ_not oracle i r code h hc]
        simp

/-- C9: `fetchWithRetry` always returns after at most `retries` retries
(so at most `retries + 1` fetch attempts); in particular with the default
budget `RETRY_LIMIT = 3` an unbounded streak of 504 responses produces
exactly three backoffs and then `null`. -/
theorem c9_bounded_retries {α : Type} (oracle : ℕ → FetchOutcome α)
    (i retries : ℕ) :
    (fetchWithRetry oracle i retries).2.length ≤ retries ∧
    (fetchWithRetry oracle i RETRY_LIMIT).2.length + 1 ≤ RETRY_LIMIT + 1 ∧
    fetchWithRetry
        (fun _ => (FetchOutcome.httpStatus 504 : FetchOutcome α)) i
        RETRY_LIMIT =
      (none, [DELAY_BETWEEN_CHECKS_MS, DELAY_BETWEEN_CHECKS_MS,
              DELAY_BETWEEN_CHECKS_MS]) := by
  refine ⟨fetchWithRetry_length_le oracle retries i, ?_, ?_⟩
  · have := fetchWithRetry_length_le oracle RETRY_LIMIT i
    omega
  · have hs : ∀ j : ℕ,
        (fun _ => (FetchOutcome.httpStatus 504 : FetchOutcome α)) j =
          FetchOutcome.httpStatus 504 := fun _ => rfl
    have e0 := fetchWithRetry_status_zero
      (fun _ => (FetchOutcome.httpStatus 504 : FetchOutcome α)) (i + 3) 504
      (hs (i + 3))
    have e1 := fetchWithRetry_status_succ_504
      (fun _ => (FetchOutcome.httpStatus 504 : FetchOutcome α)) (i + 2) 0
      (hs (i + 2))
    have e2 := fetchWithRetry_status_succ_504
      (fun _ => (FetchOutcome.httpStatus 504 : FetchOutcome α)) (i + 1) 1
      (hs (i + 1))
    have e3 := fetchWithRetry_status_succ_504
      (fun _ => (FetchOutcome.httpStatus 504 : FetchOutcome α)) i 2 (hs i)
    have h3 : RETRY_LIMIT = 2 + 1 := rfl
    rw [h3, e3]
    have ha : i + 1 + 1 = i + 2 := by omega
    have hb : i + 2 + 1 = i + 3 := by omega
    rw [e2, ha, e1, hb, e0]
